import Mathlib

/-!
Shallow embedding of the octodns-infomaniak provider
(src/octodns_infomaniak/__init__.py).

The provider keeps a per-zone cache of raw records fetched from the
Infomaniak REST API, translates between raw provider rows and grouped
octodns records, and applies Create/Update/Delete changes through the
client.  HTTP traffic is modelled by a `Client` oracle whose three
operations return `Except Err`, and every client call made by the code is
recorded in an `ApiCall` trace so that call-count and call-order
properties can be stated.
-/

set_option autoImplicit false

namespace Infomaniak

/-- A raw provider-side record row, one per distinct value
(`record` dicts returned by `InfomaniakClient.records`). -/
structure RawRecord where
  id : Nat
  source : String
  type : String
  ttl : Nat
  target : String
  deriving DecidableEq, Repr

/-- Error taxonomy of `InfomaniakClient._request`: HTTP 400 raises
`InfomaniakClientBadRequest`, HTTP 401 raises `InfomaniakClientUnauthorized`,
any other non-2xx raises a plain `requests.HTTPError` via
`raise_for_status` (modelled as `httpError status`).  `attributeError`
models Python's `getattr` failing on a dispatch by type name. -/
inductive Err where
  | badRequest
  | unauthorized
  | httpError (status : Nat)
  | attributeError (name : String)
  deriving DecidableEq, Repr

/-- Python `InfomaniakClientException` catches only the two named subclasses;
`requests.HTTPError` from `raise_for_status` is not one of them. -/
def isClientException : Err → Bool
  | Err.badRequest => true
  | Err.unauthorized => true
  | _ => false

/-- Status classification of `InfomaniakClient._request`:
400 is `BadRequest`, 401 is `Unauthorized`, any other 4xx/5xx raises
through `raise_for_status`, 2xx succeeds. -/
def classifyStatus (status : Nat) : Option Err :=
  if status = 400 then some Err.badRequest
  else if status = 401 then some Err.unauthorized
  else if 400 ≤ status ∧ status < 600 then some (Err.httpError status)
  else none

/-- A parameter object produced by `_params_for_*` and posted by
`record_create`. -/
structure ParamsRec where
  target : String
  source : String
  ttl : Nat
  type : String
  deriving DecidableEq, Repr

/-- One client call issued by the provider; traces of these model the
HTTP traffic. -/
inductive ApiCall where
  | fetch (domain : String)
  | create (domain : String) (params : ParamsRec)
  | delete (domain : String) (recordId : Nat)
  deriving DecidableEq, Repr

/-- The remote side as an oracle: what each client call would return. -/
structure Client where
  fetchRes : String → Except Err (List RawRecord)
  createRes : String → ParamsRec → Except Err Unit
  deleteRes : String → Nat → Except Err Unit

/-- Classification of `_request` on a response with the given status and payload. -/
def request {α : Type} (status : Nat) (payload : α) : Except Err α :=
  match classifyStatus status with
  | some e => Except.error e
  | none => Except.ok payload

/-- Python `str.rstrip "."`: drop every trailing dot. -/
def rstripDots (s : String) : String :=
  String.mk ((s.data.reverse.dropWhile (fun c => c = '.')).reverse)

/-- A model of `InfomaniakClient.records` built from an HTTP oracle giving a status
code and a decoded `data` payload per domain; the client rstrips the
domain name before issuing the request. -/
def fetchOfHttp (resp : String → Nat × List RawRecord) :
    String → Except Err (List RawRecord) :=
  fun domain =>
    let r := resp (rstripDots domain)
    request r.1 r.2

/-- A client whose mutating calls always succeed, reading from the given
fetch oracle. -/
def mkClient (f : String → Except Err (List RawRecord)) : Client :=
  ⟨f, fun _ _ => Except.ok (), fun _ _ => Except.ok ()⟩

/-- The `self._zone_records` attribute: a Python dict from zone name (dot-terminated)
to the raw record list last fetched. -/
abbrev ZoneCache : Type := List (String × List RawRecord)

/-- Dict lookup. -/
def lookupZone : ZoneCache → String → Option (List RawRecord)
  | [], _ => none
  | p :: rest, z => if p.1 = z then some p.2 else lookupZone rest z

/-- Dict assignment `self._zone_records[zone.name] = recs`. -/
def insertZone : ZoneCache → String → List RawRecord → ZoneCache
  | [], z, rs => [(z, rs)]
  | p :: rest, z, rs =>
    if p.1 = z then (z, rs) :: rest else p :: insertZone rest z rs

/-- Dict `pop(zone, None)`: every entry under the key is removed. -/
def eraseZone (c : ZoneCache) (z : String) : ZoneCache :=
  c.filter (fun p => decide (p.1 ≠ z))

/-- Membership test `zone.name in self._zone_records`. -/
def containsZone (c : ZoneCache) (z : String) : Bool :=
  (lookupZone c z).isSome

/-- Model of `InfomaniakProvider.zone_records`: on a cache miss fetch
`zone.name[:-1]` through the client (which rstrips dots); store the result
on success; swallow `InfomaniakClientException` into an empty list without
storing; let any other error propagate.  Returns the trace of client
calls, the new cache, and the result. -/
def zone_records (cl : Client) (cache : ZoneCache) (zoneName : String) :
    List ApiCall × ZoneCache × Except Err (List RawRecord) :=
  match lookupZone cache zoneName with
  | some recs => ([], cache, Except.ok recs)
  | none =>
    let d := rstripDots (zoneName.dropRight 1)
    match cl.fetchRes d with
    | Except.ok recs =>
      ([ApiCall.fetch d], insertZone cache zoneName recs, Except.ok recs)
    | Except.error e =>
      if isClientException e then ([ApiCall.fetch d], cache, Except.ok [])
      else ([ApiCall.fetch d], cache, Except.error e)

/-- The supported record types: `SUPPORTS = set(("A", "AAAA", "CNAME"))`. -/
def SUPPORTS (t : String) : Bool :=
  t = "A" || t = "AAAA" || t = "CNAME"

/-- The nested `defaultdict(lambda: defaultdict(list))` of populate:
an insertion-ordered map from source name to an insertion-ordered map from
type to the record rows of that group. -/
abbrev Group : Type := List (String × List (String × List RawRecord))

/-- Append a row to the inner per-type list, creating the key at the end
when absent (Python list `append` on a `defaultdict`). -/
def insertTyped : List (String × List RawRecord) → String → RawRecord →
    List (String × List RawRecord)
  | [], t, r => [(t, [r])]
  | p :: rest, t, r =>
    if p.1 = t then (p.1, p.2 ++ [r]) :: rest else p :: insertTyped rest t r

/-- Append a row under its source name, creating the key at the end when
absent. -/
def insertNamed : Group → String → String → RawRecord → Group
  | [], n, t, r => [(n, [(t, [r])])]
  | p :: rest, n, t, r =>
    if p.1 = n then (p.1, insertTyped p.2 t r) :: rest
    else p :: insertNamed rest n t r

/-- One iteration of populate's grouping loop: unsupported types are
skipped (with a warning in the source), supported rows are appended to
`values[source][type]`. -/
def groupStep (g : Group) (r : RawRecord) : Group :=
  if SUPPORTS r.type then insertNamed g r.source r.type r else g

/-- The grouping loop of `populate`. -/
def groupRecords (recs : List RawRecord) : Group :=
  recs.foldl groupStep []

/-- The data dict built by `_data_for_generic` (also `_data_for_A`,
`_data_for_AAAA`, `_data_for_CNAME`): ttl and target are taken from
`records[0]` only. -/
structure RecordData where
  ttl : Nat
  type : String
  value : String
  deriving DecidableEq, Repr

/-- Model of `_data_for_generic(_type, records)`. -/
def data_for_generic (t : String) (records : List RawRecord) : RecordData :=
  ⟨(records.headD ⟨0, "", "", 0, ""⟩).ttl, t,
    (records.headD ⟨0, "", "", 0, ""⟩).target⟩

/-- A record handed to `zone.add_record` by populate. -/
structure RecordOut where
  name : String
  type : String
  ttl : Nat
  value : String
  deriving DecidableEq, Repr

/-- The record populate builds for one `(name, type)` group: the apex
name `"."` becomes `""`, the data comes from `_data_for_generic`. -/
def recordOfGroup (n t : String) (rs : List RawRecord) : RecordOut :=
  let d := data_for_generic t rs
  ⟨if n = "." then "" else n, d.type, d.ttl, d.value⟩

/-- The records populate adds to the zone container, in group insertion
order. -/
def populateRecords (recs : List RawRecord) : List RecordOut :=
  (groupRecords recs).flatMap
    (fun p => p.2.map (fun q => recordOfGroup p.1 q.1 q.2))

/-- Model of `InfomaniakProvider.populate`: read the raw rows through
`zone_records`, group and translate them, compute
`exists = zone.name in self._zone_records` (after `zone_records` has run),
then issue one more uncached client fetch for the log line
`len(self._client.records(zone.name)) - before` and return
`(added records, exists)`.  Errors from either client call propagate. -/
def populate (cl : Client) (cache : ZoneCache) (zoneName : String) :
    List ApiCall × ZoneCache × Except Err (List RecordOut × Bool) :=
  match zone_records cl cache zoneName with
  | (tr, cache', Except.error e) => (tr, cache', Except.error e)
  | (tr, cache', Except.ok recs) =>
    match cl.fetchRes (rstripDots zoneName) with
    | Except.ok _ =>
      (tr ++ [ApiCall.fetch (rstripDots zoneName)], cache',
        Except.ok (populateRecords recs, containsZone cache' zoneName))
    | Except.error e =>
      (tr ++ [ApiCall.fetch (rstripDots zoneName)], cache',
        Except.error e)

/-- An octodns record as seen by the apply path: its zone name
(dot-terminated), name, type, ttl and value list (octodns stores a
single-value record's value as the one-element list). -/
structure DesiredRecord where
  zone : String
  name : String
  type : String
  ttl : Nat
  values : List String
  deriving DecidableEq, Repr

/-- The `record.value` accessor of a single-value record. -/
def DesiredRecord.value (r : DesiredRecord) : String :=
  r.values.headD ""

/-- Rebuild a record with a new name (Python's in-place
`existing.name = "."` made explicit). -/
def setName (r : DesiredRecord) (n : String) : DesiredRecord :=
  ⟨r.zone, n, r.type, r.ttl, r.values⟩

/-- An octodns change: Create carries `new`, Delete carries `existing`,
Update carries both. -/
inductive Change where
  | create (new : DesiredRecord)
  | delete (existing : DesiredRecord)
  | update (existing : DesiredRecord) (new : DesiredRecord)
  deriving DecidableEq, Repr

/-- Model of `_params_for_generic`: one parameter object from `record.value`. -/
def params_for_generic (record : DesiredRecord) : List ParamsRec :=
  [⟨record.value, record.name, record.ttl, record.type⟩]

/-- Model of `_params_for_multiple`: one parameter object per element of
`record.values`, in order. -/
def params_for_multiple (record : DesiredRecord) : List ParamsRec :=
  record.values.map (fun v => ⟨v, record.name, record.ttl, record.type⟩)

/-- The `for params in params_for(new)` loop of `_apply_create`: each
parameter set is posted in turn; a failing post stops the loop and the
error propagates, earlier posts staying issued. -/
def create_loop (cl : Client) (domain : String) :
    List ParamsRec → List ApiCall × Except Err Unit
  | [] => ([], Except.ok ())
  | p :: rest =>
    match cl.createRes domain p with
    | Except.ok _ =>
      let s := create_loop cl domain rest
      (ApiCall.create domain p :: s.1, s.2)
    | Except.error e => ([ApiCall.create domain p], Except.error e)

/-- Model of `_apply_create`: dispatch `_params_for_{new._type}` by type name
(`A`/`AAAA` use `_params_for_multiple`, `CNAME` uses
`_params_for_generic`, anything else makes `getattr` raise) and post each
parameter set to `new.zone.name[:-1]`. -/
def apply_create (cl : Client) (new : DesiredRecord) :
    List ApiCall × Except Err Unit :=
  let domain := new.zone.dropRight 1
  if new.type = "A" || new.type = "AAAA" then
    create_loop cl domain (params_for_multiple new)
  else if new.type = "CNAME" then
    create_loop cl domain (params_for_generic new)
  else ([], Except.error (Err.attributeError ("_params_for_" ++ new.type)))

/-- The record-deletion loop of `_apply_delete`: every cached row whose
source and type match is deleted in turn; a failing delete stops the loop
and the error propagates. -/
def delete_loop (cl : Client) (domain : String) (n t : String) :
    List RawRecord → List ApiCall × Except Err Unit
  | [] => ([], Except.ok ())
  | r :: rest =>
    if n = r.source ∧ t = r.type then
      match cl.deleteRes domain r.id with
      | Except.ok _ =>
        let s := delete_loop cl domain n t rest
        (ApiCall.delete domain r.id :: s.1, s.2)
      | Except.error e => ([ApiCall.delete domain r.id], Except.error e)
    else delete_loop cl domain n t rest

/-- The in-place apex rename at the top of `_apply_delete`:
`if existing.name == "": existing.name = "."`. -/
def apexRename (r : DesiredRecord) : DesiredRecord :=
  if r.name = "" then setName r "." else r

/-- Model of `_apply_delete`: rewrite an apex `existing.name` from `""` to `"."`
in place, read the zone rows through `zone_records` (which may fetch and
cache), and delete every row matching `(existing.name, existing._type)`.
Returns the (possibly renamed) record, the trace, the cache and the
result. -/
def apply_delete (cl : Client) (cache : ZoneCache)
    (existing : DesiredRecord) :
    DesiredRecord × List ApiCall × ZoneCache × Except Err Unit :=
  match zone_records cl cache (apexRename existing).zone with
  | (tr, cache', Except.error e) =>
    (apexRename existing, tr, cache', Except.error e)
  | (tr, cache', Except.ok recs) =>
    let s := delete_loop cl ((apexRename existing).zone.dropRight 1)
      (apexRename existing).name (apexRename existing).type recs
    (apexRename existing, tr ++ s.1, cache', s.2)

/-- Model of `_apply_update`: `_apply_delete` on the change's `existing`, then
`_apply_create` on its `new`; a delete failure skips the create. -/
def apply_update (cl : Client) (cache : ZoneCache)
    (existing new : DesiredRecord) :
    DesiredRecord × List ApiCall × ZoneCache × Except Err Unit :=
  match apply_delete cl cache existing with
  | (ex, tr, cache', Except.error e) => (ex, tr, cache', Except.error e)
  | (ex, tr, cache', Except.ok _) =>
    let s := apply_create cl new
    (ex, tr ++ s.1, cache', s.2)

/-- One iteration of `_apply`'s loop: dispatch
`_apply_{change.__class__.__name__.lower()}`.  Returns the change as it
stands after the handler ran (Python mutates it in place), the trace, the
cache and the result. -/
def apply_change (cl : Client) (cache : ZoneCache) :
    Change → Change × List ApiCall × ZoneCache × Except Err Unit
  | Change.create new =>
    let s := apply_create cl new
    (Change.create new, s.1, cache, s.2)
  | Change.delete existing =>
    let s := apply_delete cl cache existing
    (Change.delete s.1, s.2.1, s.2.2.1, s.2.2.2)
  | Change.update existing new =>
    let s := apply_update cl cache existing new
    (Change.update s.1 new, s.2.1, s.2.2.1, s.2.2.2)

/-- The `for change in changes` loop of `_apply`: a handler failure stops
the loop and propagates, leaving the remaining changes untouched. -/
def apply_loop (cl : Client) (cache : ZoneCache) :
    List Change → List Change × List ApiCall × ZoneCache × Except Err Unit
  | [] => ([], [], cache, Except.ok ())
  | c :: cs =>
    match apply_change cl cache c with
    | (c', tr, cache', Except.error e) =>
      (c' :: cs, tr, cache', Except.error e)
    | (c', tr, cache', Except.ok _) =>
      let s := apply_loop cl cache' cs
      (c' :: s.1, tr ++ s.2.1, s.2.2.1, s.2.2.2)

/-- Model of `InfomaniakProvider._apply`: run every change in order, then
`self._zone_records.pop(desired.name, None)`.  The pop line is only
reached when every handler succeeded; an exception propagates past it. -/
def apply_plan (cl : Client) (cache : ZoneCache) (desiredName : String)
    (changes : List Change) :
    List Change × List ApiCall × ZoneCache × Except Err Unit :=
  match apply_loop cl cache changes with
  | (cs, tr, cache', Except.error e) => (cs, tr, cache', Except.error e)
  | (cs, tr, cache', Except.ok _) =>
    (cs, tr, eraseZone cache' desiredName, Except.ok ())

/-- Number of fetch calls in a trace. -/
def countFetch : List ApiCall → Nat
  | [] => 0
  | ApiCall.fetch _ :: rest => countFetch rest + 1
  | _ :: rest => countFetch rest

/-- Whether a fetch outcome escapes `except InfomaniakClientException`:
only a `raise_for_status` error does. -/
def fetchPropagates : Except Err (List RawRecord) → Bool
  | Except.ok _ => false
  | Except.error e => !isClientException e

/-- Whether a fetch outcome is a success. -/
def exceptIsOk {α : Type} : Except Err α → Bool
  | Except.ok _ => true
  | Except.error _ => false

/-- Models the external provider of spec section 6: each successful
`createRecord` POST materializes one RawRecord row, ids assigned in
sequence. -/
def recordsOfTrace : List ApiCall → Nat → List RawRecord
  | [], _ => []
  | ApiCall.create _ p :: rest, n =>
    ⟨n, p.source, p.type, p.ttl, p.target⟩ :: recordsOfTrace rest (n + 1)
  | _ :: rest, n => recordsOfTrace rest n

/-- Equality of client-call outcomes is decidable. -/
instance {ε α : Type} [DecidableEq ε] [DecidableEq α] :
    DecidableEq (Except ε α) := fun x y =>
  match x, y with
  | Except.ok a, Except.ok b =>
    if h : a = b then isTrue (by rw [h])
    else isFalse (by intro hc; cases hc; exact h rfl)
  | Except.error a, Except.error b =>
    if h : a = b then isTrue (by rw [h])
    else isFalse (by intro hc; cases hc; exact h rfl)
  | Except.ok _, Except.error _ => isFalse (by intro hc; cases hc)
  | Except.error _, Except.ok _ => isFalse (by intro hc; cases hc)

/-! ### Concrete fixtures used by closed counterexamples and witnesses -/

/-- A client whose fetch returns no rows and whose mutating calls all
succeed. -/
def okCl : Client :=
  ⟨fun _ => Except.ok [], fun _ _ => Except.ok (), fun _ _ => Except.ok ()⟩

/-- A client whose fetch succeeds empty but whose create posts are
rejected with HTTP 400. -/
def badCreateCl : Client :=
  ⟨fun _ => Except.ok [], fun _ _ => Except.error Err.badRequest,
    fun _ _ => Except.ok ()⟩

/-- A client whose fetch always fails with HTTP 400. -/
def badFetchCl : Client :=
  ⟨fun _ => Except.error Err.badRequest, fun _ _ => Except.ok (),
    fun _ _ => Except.ok ()⟩

/-- The apex A row of the spec section 8 scenario. -/
def rrApex : RawRecord := ⟨1, ".", "A", 300, "1.1.1.1"⟩

/-- A two-value A record about to be created. -/
def rC1 : DesiredRecord :=
  ⟨"example.com.", "www", "A", 300, ["1.1.1.1", "2.2.2.2"]⟩

/-- The www CNAME record of the spec section 8 scenario. -/
def wwwCname : DesiredRecord :=
  ⟨"z.com.", "www", "CNAME", 600, ["example.com."]⟩

/-- A Delete target at the zone apex. -/
def exC6 : DesiredRecord := ⟨"z.com.", "", "A", 300, ["1.1.1.1"]⟩

/-! ### Cache lemmas -/

theorem lookupZone_insertZone (c : ZoneCache) (z z' : String)
    (rs : List RawRecord) :
    lookupZone (insertZone c z' rs) z =
      if z' = z then some rs else lookupZone c z := by
  induction c with
  | nil => simp [insertZone, lookupZone]
  | cons p rest ih =>
    by_cases hp : p.1 = z'
    · by_cases hz : z' = z <;> simp [insertZone, lookupZone, hp, hz]
    · by_cases hz : p.1 = z
      · have hz' : ¬z' = z := fun hc => hp (hz.trans hc.symm)
        have hz'' : ¬z = z' := fun hc => hz' hc.symm
        simp [insertZone, lookupZone, hp, hz, hz', hz'']
      · simp [insertZone, lookupZone, hp, hz, ih]

theorem containsZone_insertZone (c : ZoneCache) (z z' : String)
    (rs : List RawRecord) (h : containsZone c z = true) :
    containsZone (insertZone c z' rs) z = true := by
  simp only [containsZone, lookupZone_insertZone]
  by_cases hz : z' = z <;> simp [hz]
  · simpa [containsZone] using h

theorem containsZone_insertZone_self (c : ZoneCache) (z : String)
    (rs : List RawRecord) : containsZone (insertZone c z rs) z = true := by
  simp [containsZone, lookupZone_insertZone]

theorem lookupZone_eraseZone_self (c : ZoneCache) (z : String) :
    lookupZone (eraseZone c z) z = none := by
  induction c with
  | nil => simp [eraseZone, lookupZone]
  | cons p rest ih =>
    by_cases hp : p.1 = z
    · simpa [eraseZone, hp] using ih
    · simpa [eraseZone, lookupZone, hp] using ih

/-! ### zone_records characterizations -/

theorem zone_records_hit (cl : Client) (cache : ZoneCache) (z : String)
    (recs : List RawRecord) (h : lookupZone cache z = some recs) :
    zone_records cl cache z = ([], cache, Except.ok recs) := by
  simp [zone_records, h]

theorem zone_records_miss_ok (cl : Client) (cache : ZoneCache) (z : String)
    (recs : List RawRecord) (h1 : lookupZone cache z = none)
    (h2 : cl.fetchRes (rstripDots (z.dropRight 1)) = Except.ok recs) :
    zone_records cl cache z =
      ([ApiCall.fetch (rstripDots (z.dropRight 1))], insertZone cache z recs,
        Except.ok recs) := by
  simp [zone_records, h1, h2]

theorem zone_records_miss_swallow (cl : Client) (cache : ZoneCache)
    (z : String) (e : Err) (h1 : lookupZone cache z = none)
    (h2 : cl.fetchRes (rstripDots (z.dropRight 1)) = Except.error e)
    (h3 : isClientException e = true) :
    zone_records cl cache z =
      ([ApiCall.fetch (rstripDots (z.dropRight 1))], cache, Except.ok []) := by
  simp [zone_records, h1, h2, h3]

theorem zone_records_miss_propagate (cl : Client) (cache : ZoneCache)
    (z : String) (e : Err) (h1 : lookupZone cache z = none)
    (h2 : cl.fetchRes (rstripDots (z.dropRight 1)) = Except.error e)
    (h3 : isClientException e = false) :
    zone_records cl cache z =
      ([ApiCall.fetch (rstripDots (z.dropRight 1))], cache,
        Except.error e) := by
  simp [zone_records, h1, h2, h3]

theorem zone_records_cache_mono (cl : Client) (cache : ZoneCache)
    (z' z : String) (h : containsZone cache z = true) :
    containsZone (zone_records cl cache z').2.1 z = true := by
  cases hl : lookupZone cache z' with
  | some recs => rw [zone_records_hit cl cache z' recs hl]; exact h
  | none =>
    cases hf : cl.fetchRes (rstripDots (z'.dropRight 1)) with
    | ok recs =>
      rw [zone_records_miss_ok cl cache z' recs hl hf]
      exact containsZone_insertZone cache z z' recs h
    | error e =>
      cases he : isClientException e with
      | true => rw [zone_records_miss_swallow cl cache z' e hl hf he]; exact h
      | false => rw [zone_records_miss_propagate cl cache z' e hl hf he]; exact h

/-! ### Apply-side lemmas -/

theorem create_loop_ok (cl : Client) (domain : String) (ps : List ParamsRec)
    (h : ∀ p ∈ ps, cl.createRes domain p = Except.ok ()) :
    create_loop cl domain ps =
      (ps.map (ApiCall.create domain), Except.ok ()) := by
  induction ps with
  | nil => simp [create_loop]
  | cons p rest ih =>
    have hp := h p (List.mem_cons_self p rest)
    have hrest := ih (fun q hq => h q (List.mem_cons_of_mem p hq))
    simp [create_loop, hp, hrest]

theorem delete_loop_ok (cl : Client) (domain : String) (n t : String)
    (recs : List RawRecord)
    (h : ∀ i : Nat, cl.deleteRes domain i = Except.ok ()) :
    delete_loop cl domain n t recs =
      ((recs.filter (fun r => decide (n = r.source ∧ t = r.type))).map
          (fun r => ApiCall.delete domain r.id),
        Except.ok ()) := by
  induction recs with
  | nil => simp [delete_loop]
  | cons r rest ih =>
    by_cases hm : n = r.source ∧ t = r.type
    · obtain ⟨hn, ht⟩ := hm
      subst hn; subst ht
      simp [delete_loop, h r.id, ih, List.filter_cons]
    · simp [delete_loop, hm, ih, List.filter_cons]

theorem setName_zone (r : DesiredRecord) (n : String) :
    (setName r n).zone = r.zone := rfl

theorem setName_name (r : DesiredRecord) (n : String) :
    (setName r n).name = n := rfl

theorem setName_type (r : DesiredRecord) (n : String) :
    (setName r n).type = r.type := rfl

theorem apexRename_zone (r : DesiredRecord) :
    (apexRename r).zone = r.zone := by
  by_cases h : r.name = "" <;> simp [apexRename, h, setName_zone]

theorem apply_delete_cache_mono (cl : Client) (cache : ZoneCache)
    (existing : DesiredRecord) (z : String)
    (h : containsZone cache z = true) :
    containsZone (apply_delete cl cache existing).2.2.1 z = true := by
  unfold apply_delete
  have hmono := zone_records_cache_mono cl cache
    (apexRename existing).zone z h
  rcases hzr : zone_records cl cache (apexRename existing).zone
      with ⟨tr, cache', res⟩
  rw [hzr] at hmono
  cases res <;> simpa using hmono

theorem apply_update_cache_mono (cl : Client) (cache : ZoneCache)
    (existing new : DesiredRecord) (z : String)
    (h : containsZone cache z = true) :
    containsZone (apply_update cl cache existing new).2.2.1 z = true := by
  unfold apply_update
  have hmono := apply_delete_cache_mono cl cache existing z h
  rcases hd : apply_delete cl cache existing with ⟨ex, tr, cache', res⟩
  rw [hd] at hmono
  cases res <;> simpa using hmono

theorem apply_change_cache_mono (cl : Client) (cache : ZoneCache)
    (c : Change) (z : String) (h : containsZone cache z = true) :
    containsZone (apply_change cl cache c).2.2.1 z = true := by
  cases c with
  | create new => simpa [apply_change] using h
  | delete existing =>
    simpa [apply_change] using apply_delete_cache_mono cl cache existing z h
  | update existing new =>
    simpa [apply_change] using
      apply_update_cache_mono cl cache existing new z h

theorem apply_loop_cache_mono (cl : Client) (cache : ZoneCache)
    (cs : List Change) (z : String) (h : containsZone cache z = true) :
    containsZone (apply_loop cl cache cs).2.2.1 z = true := by
  induction cs generalizing cache with
  | nil => simpa [apply_loop] using h
  | cons c rest ih =>
    have hc := apply_change_cache_mono cl cache c z h
    rcases hac : apply_change cl cache c with ⟨c', tr, cache', res⟩
    rw [hac] at hc
    cases res with
    | error e => simp [apply_loop, hac]; simpa using hc
    | ok u => simp [apply_loop, hac]; exact ih cache' (by simpa using hc)

/-! ### Grouping lemmas -/

/-- The group map holds an entry for source name `n` and type `t`. -/
def hasGroup (g : Group) (n t : String) : Prop :=
  ∃ ts, (n, ts) ∈ g ∧ ∃ rs, (t, rs) ∈ ts

theorem insertTyped_mem_key (ts : List (String × List RawRecord))
    (t t' : String) (r : RawRecord) (h : ∃ rs, (t, rs) ∈ ts) :
    ∃ rs, (t, rs) ∈ insertTyped ts t' r := by
  induction ts with
  | nil => obtain ⟨rs, hrs⟩ := h; simp at hrs
  | cons p rest ih =>
    obtain ⟨rs, hrs⟩ := h
    rcases List.mem_cons.mp hrs with heq | hmem
    · have hp1 : t = p.1 := by rw [← heq]
      by_cases hp : p.1 = t'
      · refine ⟨p.2 ++ [r], ?_⟩
        simp only [insertTyped, if_pos hp]
        rw [hp1]
        exact List.mem_cons_self _ _
      · refine ⟨rs, ?_⟩
        simp only [insertTyped, if_neg hp]
        rw [heq]
        exact List.mem_cons_self _ _
    · by_cases hp : p.1 = t'
      · refine ⟨rs, ?_⟩
        simp only [insertTyped, if_pos hp]
        exact List.mem_cons_of_mem _ hmem
      · obtain ⟨rs', hrs'⟩ := ih ⟨rs, hmem⟩
        refine ⟨rs', ?_⟩
        simp only [insertTyped, if_neg hp]
        exact List.mem_cons_of_mem _ hrs'

theorem insertTyped_mem_self (ts : List (String × List RawRecord))
    (t : String) (r : RawRecord) : ∃ rs, (t, rs) ∈ insertTyped ts t r := by
  induction ts with
  | nil => exact ⟨[r], by simp [insertTyped]⟩
  | cons p rest ih =>
    by_cases hp : p.1 = t
    · refine ⟨p.2 ++ [r], ?_⟩
      simp only [insertTyped, if_pos hp]
      rw [← hp]
      exact List.mem_cons_self _ _
    · obtain ⟨rs, hrs⟩ := ih
      refine ⟨rs, ?_⟩
      simp only [insertTyped, if_neg hp]
      exact List.mem_cons_of_mem _ hrs

theorem hasGroup_insertNamed_of (g : Group) (n t n' t' : String)
    (r : RawRecord) (h : hasGroup g n t) :
    hasGroup (insertNamed g n' t' r) n t := by
  induction g with
  | nil => obtain ⟨ts, hts, _⟩ := h; simp at hts
  | cons p rest ih =>
    obtain ⟨ts, hts, hin⟩ := h
    rcases List.mem_cons.mp hts with heq | hmem
    · have hp1 : n = p.1 := by rw [← heq]
      have hp2 : ts = p.2 := by rw [← heq]
      by_cases hp : p.1 = n'
      · refine ⟨insertTyped p.2 t' r, ?_, ?_⟩
        · simp only [insertNamed, if_pos hp]
          rw [hp1]
          exact List.mem_cons_self _ _
        · exact insertTyped_mem_key p.2 t t' r (hp2 ▸ hin)
      · refine ⟨ts, ?_, hin⟩
        simp only [insertNamed, if_neg hp]
        rw [heq]
        exact List.mem_cons_self _ _
    · by_cases hp : p.1 = n'
      · refine ⟨ts, ?_, hin⟩
        simp only [insertNamed, if_pos hp]
        exact List.mem_cons_of_mem _ hmem
      · obtain ⟨ts', hts', hin'⟩ := ih ⟨ts, hmem, hin⟩
        refine ⟨ts', ?_, hin'⟩
        simp only [insertNamed, if_neg hp]
        exact List.mem_cons_of_mem _ hts'

theorem hasGroup_insertNamed_self (g : Group) (n t : String)
    (r : RawRecord) : hasGroup (insertNamed g n t r) n t := by
  induction g with
  | nil =>
    refine ⟨[(t, [r])], ?_, [r], ?_⟩ <;> simp [insertNamed]
  | cons p rest ih =>
    by_cases hp : p.1 = n
    · obtain ⟨rs, hrs⟩ := insertTyped_mem_self p.2 t r
      refine ⟨insertTyped p.2 t r, ?_, rs, hrs⟩
      simp only [insertNamed, if_pos hp]
      rw [← hp]
      exact List.mem_cons_self _ _
    · obtain ⟨ts, hts, hin⟩ := ih
      refine ⟨ts, ?_, hin⟩
      simp only [insertNamed, if_neg hp]
      exact List.mem_cons_of_mem _ hts

theorem hasGroup_foldl (recs : List RawRecord) (g : Group) (n t : String)
    (h : hasGroup g n t) : hasGroup (recs.foldl groupStep g) n t := by
  induction recs generalizing g with
  | nil => exact h
  | cons r rest ih =>
    simp only [List.foldl_cons]
    apply ih
    unfold groupStep
    by_cases hs : SUPPORTS r.type = true
    · simpa [hs] using hasGroup_insertNamed_of g n t r.source r.type r h
    · simpa [hs] using h

theorem hasGroup_foldl_of_mem (recs : List RawRecord) (g : Group)
    (r : RawRecord) (h : r ∈ recs) (hs : SUPPORTS r.type = true) :
    hasGroup (recs.foldl groupStep g) r.source r.type := by
  induction recs generalizing g with
  | nil => simp at h
  | cons a rest ih =>
    simp only [List.foldl_cons]
    rcases List.mem_cons.mp h with heq | hmem
    · subst heq
      apply hasGroup_foldl
      have hstep : groupStep g r = insertNamed g r.source r.type r := by
        simp [groupStep, hs]
      rw [hstep]
      exact hasGroup_insertNamed_self g r.source r.type r
    · exact ih (groupStep g a) hmem

theorem hasGroup_groupRecords (recs : List RawRecord) (r : RawRecord)
    (h : r ∈ recs) (hs : SUPPORTS r.type = true) :
    hasGroup (groupRecords recs) r.source r.type :=
  hasGroup_foldl_of_mem recs [] r h hs

theorem mem_populateRecords_of_hasGroup (recs : List RawRecord)
    (n t : String) (h : hasGroup (groupRecords recs) n t) :
    ∃ o ∈ populateRecords recs,
      o.name = (if n = "." then "" else n) ∧ o.type = t := by
  obtain ⟨ts, hts, rs, hrs⟩ := h
  refine ⟨recordOfGroup n t rs, ?_, rfl, rfl⟩
  unfold populateRecords
  exact List.mem_flatMap.mpr
    ⟨(n, ts), hts, List.mem_map.mpr ⟨(t, rs), hrs, rfl⟩⟩

/-- Every type key in the group map is a supported type. -/
def groupSupported (g : Group) : Prop :=
  ∀ p ∈ g, ∀ q ∈ p.2, SUPPORTS q.1 = true

theorem insertTyped_keys (ts : List (String × List RawRecord)) (t : String)
    (r : RawRecord) (h : ∀ q ∈ ts, SUPPORTS q.1 = true)
    (ht : SUPPORTS t = true) :
    ∀ q ∈ insertTyped ts t r, SUPPORTS q.1 = true := by
  induction ts with
  | nil =>
    intro q hq
    simp [insertTyped] at hq
    rw [hq]
    exact ht
  | cons p rest ih =>
    intro q hq
    by_cases hp : p.1 = t
    · simp only [insertTyped, if_pos hp] at hq
      rcases List.mem_cons.mp hq with heq | hmem
      · rw [heq]; exact h p (List.mem_cons_self _ _)
      · exact h q (List.mem_cons_of_mem _ hmem)
    · simp only [insertTyped, if_neg hp] at hq
      rcases List.mem_cons.mp hq with heq | hmem
      · rw [heq]; exact h p (List.mem_cons_self _ _)
      · exact ih (fun q' hq' => h q' (List.mem_cons_of_mem _ hq')) q hmem

theorem groupSupported_insertNamed (g : Group) (n t : String)
    (r : RawRecord) (h : groupSupported g) (ht : SUPPORTS t = true) :
    groupSupported (insertNamed g n t r) := by
  induction g with
  | nil =>
    intro p hp q hq
    simp [insertNamed] at hp
    rw [hp] at hq
    simp at hq
    rw [hq]
    exact ht
  | cons p0 rest ih =>
    intro p hp q hq
    by_cases hp0 : p0.1 = n
    · simp only [insertNamed, if_pos hp0] at hp
      rcases List.mem_cons.mp hp with heq | hmem
      · rw [heq] at hq
        exact insertTyped_keys p0.2 t r
          (fun q' hq' => h p0 (List.mem_cons_self _ _) q' hq') ht q hq
      · exact h p (List.mem_cons_of_mem _ hmem) q hq
    · simp only [insertNamed, if_neg hp0] at hp
      rcases List.mem_cons.mp hp with heq | hmem
      · rw [heq] at hq
        exact h p0 (List.mem_cons_self _ _) q hq
      · exact ih (fun p' hp' q' hq' =>
          h p' (List.mem_cons_of_mem _ hp') q' hq') p hmem q hq

theorem groupSupported_foldl (recs : List RawRecord) (g : Group)
    (h : groupSupported g) : groupSupported (recs.foldl groupStep g) := by
  induction recs generalizing g with
  | nil => exact h
  | cons r rest ih =>
    simp only [List.foldl_cons]
    apply ih
    by_cases hs : SUPPORTS r.type = true
    · simpa [groupStep, hs] using
        groupSupported_insertNamed g r.source r.type r h hs
    · simpa [groupStep, hs] using h

theorem groupSupported_groupRecords (recs : List RawRecord) :
    groupSupported (groupRecords recs) :=
  groupSupported_foldl recs []
    (by intro p hp; exact absurd hp (List.not_mem_nil p))

theorem populateRecords_types_supported (recs : List RawRecord)
    (o : RecordOut) (ho : o ∈ populateRecords recs) :
    SUPPORTS o.type = true := by
  unfold populateRecords at ho
  obtain ⟨p, hp, ho2⟩ := List.mem_flatMap.mp ho
  obtain ⟨q, hq, rfl⟩ := List.mem_map.mp ho2
  exact groupSupported_groupRecords recs p hp q hq

theorem groupRecords_filter (recs : List RawRecord) :
    groupRecords recs =
      groupRecords (recs.filter (fun x => SUPPORTS x.type)) := by
  unfold groupRecords
  suffices hgen : ∀ g : Group, recs.foldl groupStep g =
      (recs.filter (fun x => SUPPORTS x.type)).foldl groupStep g from hgen []
  induction recs with
  | nil => intro g; rfl
  | cons r rest ih =>
    intro g
    by_cases hs : SUPPORTS r.type = true
    · have hf : (r :: rest).filter (fun x => SUPPORTS x.type) =
          r :: rest.filter (fun x => SUPPORTS x.type) := by
        simp [List.filter_cons, hs]
      rw [hf, List.foldl_cons, List.foldl_cons]
      exact ih (groupStep g r)
    · have hf : (r :: rest).filter (fun x => SUPPORTS x.type) =
          rest.filter (fun x => SUPPORTS x.type) := by
        simp [List.filter_cons, hs]
      have hstep : groupStep g r = g := by simp [groupStep, hs]
      rw [hf, List.foldl_cons, hstep]
      exact ih g

theorem populateRecords_filter (recs : List RawRecord) :
    populateRecords recs =
      populateRecords (recs.filter (fun x => SUPPORTS x.type)) := by
  unfold populateRecords
  rw [groupRecords_filter recs]

theorem apply_delete_trace_apex (cl : Client) (cache : ZoneCache)
    (existing : DesiredRecord) (recs : List RawRecord)
    (hz : lookupZone cache existing.zone = some recs)
    (hok : ∀ i : Nat,
      cl.deleteRes (existing.zone.dropRight 1) i = Except.ok ())
    (hname : existing.name = "") :
    (apply_delete cl cache existing).2.1 =
      (recs.filter
          (fun x => decide ("." = x.source ∧ existing.type = x.type))).map
        (fun x => ApiCall.delete (existing.zone.dropRight 1) x.id) := by
  have hren : apexRename existing = setName existing "." := by
    simp [apexRename, hname]
  have hd := delete_loop_ok cl (existing.zone.dropRight 1) "."
    existing.type recs hok
  unfold apply_delete
  rw [hren]
  simp only [setName_zone, setName_name, setName_type]
  rw [zone_records_hit cl cache existing.zone recs hz]
  simp [hd]

/-! ### Claim theorems -/

/-- C1: the round-trip fails in the code.  Creating the two-value A
record `www` (two `createRecord` posts, hence two raw rows at the
provider) and then populating reads back a single-value record holding
only the first target, because `_data_for_generic` uses
`records[0]["target"]` alone; the value `"2.2.2.2"` is lost while the TTL
survives. -/
theorem C1_create_then_populate_drops_values :
    rC1.values = ["1.1.1.1", "2.2.2.2"] ∧
    (populateRecords (recordsOfTrace (apply_create okCl rC1).1 1)).map
        RecordOut.value = ["1.1.1.1"] ∧
    "2.2.2.2" ∉
      (populateRecords (recordsOfTrace (apply_create okCl rC1).1 1)).map
        RecordOut.value ∧
    (populateRecords (recordsOfTrace (apply_create okCl rC1).1 1)).map
        RecordOut.ttl = [300] := by decide

/-- C2 counterexample: when the single Create of the batch is rejected,
`_apply` propagates the failure, but the `pop` on `self._zone_records` is
never reached, so the zone's cache entry is still present afterwards —
the claim's "cache entry is still invalidated" is false. -/
theorem C2_cache_kept_on_failure :
    (apply_plan badCreateCl [("z.com.", [rrApex])] "z.com."
        [Change.create wwwCname]).2.2.2 = Except.error Err.badRequest ∧
    containsZone
        (apply_plan badCreateCl [("z.com.", [rrApex])] "z.com."
          [Change.create wwwCname]).2.2.1 "z.com." = true := by decide

/-- C3 counterexample: the first populate of a never-seen zone whose
fetch succeeds returns `true`, because `exists` is evaluated after
`zone_records` has already stored the fetched rows — the claim's
"first populate of a never-seen zone returns false" is false. -/
theorem C3_first_populate_returns_true :
    lookupZone ([] : ZoneCache) "example.com." = none ∧
    (populate okCl [] "example.com.").2.2 = Except.ok ([], true) := by decide

/-- C4 counterexample: after a successful apply against `z.com.` empties
its cache entry, the next populate issues two client fetches (the
`zone_records` cache-miss fetch plus the uncached fetch in the log line),
not exactly one. -/
theorem C4_two_fetches_after_apply :
    (apply_plan okCl [("z.com.", [rrApex])] "z.com."
        [Change.create wwwCname]).2.2.2 = Except.ok () ∧
    countFetch
        (populate okCl
          (apply_plan okCl [("z.com.", [rrApex])] "z.com."
            [Change.create wwwCname]).2.2.1 "z.com.").1 = 2 ∧
    countFetch
        (populate okCl
          (apply_plan okCl [("z.com.", [rrApex])] "z.com."
            [Change.create wwwCname]).2.2.1 "z.com.").1 ≠ 1 := by decide

/-- C5 counterexample: a cache-miss fetch answered with HTTP 500 does not
degrade to an empty list — `raise_for_status` raises a plain HTTP error
that `except InfomaniakClientException` does not catch, so `zone_records`
propagates it. -/
theorem C5_http_500_propagates :
    (zone_records (mkClient (fetchOfHttp (fun _ => (500, [])))) []
        "z.com.").2.2 = Except.error (Err.httpError 500) := by decide

/-- C6 counterexample: `_apply_delete` rewrites the existing record's
name in place: a Delete whose existing record has name `""` comes out of
the handler with name `"."`, so the change's records are not read-only. -/
theorem C6_delete_mutates_apex_name :
    exC6.name = "" ∧
    (apply_change okCl [("z.com.", [rrApex])] (Change.delete exC6)).1 =
      Change.delete (setName exC6 ".") ∧
    (setName exC6 ".").name ≠ exC6.name := by decide

/-- C7: apex translation is exact in both directions for the record
types populate handles: a supported raw row with source `"."` populates
as a record named `""` of the same type, and a Delete whose existing
record is named `""` issues `deleteRecord` exactly for the cached raw
rows whose source is `"."` and whose type matches. -/
theorem C7_apex_exact :
    (∀ (recs : List RawRecord) (r : RawRecord), r ∈ recs →
        SUPPORTS r.type = true → r.source = "." →
        ∃ o ∈ populateRecords recs, o.name = "" ∧ o.type = r.type) ∧
    (∀ (cl : Client) (cache : ZoneCache) (existing : DesiredRecord)
        (recs : List RawRecord),
        lookupZone cache existing.zone = some recs →
        (∀ i : Nat,
          cl.deleteRes (existing.zone.dropRight 1) i = Except.ok ()) →
        existing.name = "" →
        (apply_delete cl cache existing).2.1 =
          (recs.filter
              (fun x => decide ("." = x.source ∧ existing.type = x.type))).map
            (fun x => ApiCall.delete (existing.zone.dropRight 1) x.id)) := by
  constructor
  · intro recs r hmem hs hsrc
    have hg := hasGroup_groupRecords recs r hmem hs
    rw [hsrc] at hg
    obtain ⟨o, ho, hname, htype⟩ :=
      mem_populateRecords_of_hasGroup recs "." r.type hg
    exact ⟨o, ho, by simpa using hname, htype⟩
  · intro cl cache existing recs hz hok hname
    exact apply_delete_trace_apex cl cache existing recs hz hok hname

/-- C7 witness: in the one-row apex zone, populate emits the record named
`""`, and deleting the apex A record issues exactly the one matching
`deleteRecord` call. -/
theorem C7_apex_exact_witness :
    (∃ o ∈ populateRecords [rrApex], o.name = "" ∧ o.type = "A") ∧
    (apply_delete okCl [("z.com.", [rrApex])] exC6).2.1 =
      [ApiCall.delete "z.com" 1] := by
  constructor
  · exact C7_apex_exact.1 [rrApex] rrApex (by decide) (by decide) (by decide)
  · have h := C7_apex_exact.2 okCl [("z.com.", [rrApex])] exC6 [rrApex]
      (by decide) (fun i => rfl) (by decide)
    exact h.trans (by decide)

/-- C9: a raw row of unsupported type is dropped without failing: every
populated record has a supported type, the populated output is unchanged
when unsupported rows are filtered out beforehand, and every supported
row still yields a populated record of its name and type. -/
theorem C9_unsupported_skip :
    (∀ (recs : List RawRecord) (o : RecordOut), o ∈ populateRecords recs →
        SUPPORTS o.type = true) ∧
    (∀ recs : List RawRecord,
        populateRecords recs =
          populateRecords (recs.filter (fun x => SUPPORTS x.type))) ∧
    (∀ (recs : List RawRecord) (r : RawRecord), r ∈ recs →
        SUPPORTS r.type = true →
        ∃ o ∈ populateRecords recs,
          o.name = (if r.source = "." then "" else r.source) ∧
          o.type = r.type) := by
  refine ⟨populateRecords_types_supported, populateRecords_filter, ?_⟩
  intro recs r hmem hs
  exact mem_populateRecords_of_hasGroup recs r.source r.type
    (hasGroup_groupRecords recs r hmem hs)

/-- C9 witness: an MX row in the input leaves the populated output
exactly as without it, and the populated apex record's type is in the
supported set. -/
theorem C9_unsupported_skip_witness :
    SUPPORTS (RecordOut.mk "" "A" 300 "1.1.1.1").type = true ∧
    populateRecords [rrApex, RawRecord.mk 2 "mail" "MX" 300 "m.z.com."] =
      populateRecords [rrApex] := by
  constructor
  · exact C9_unsupported_skip.1 [rrApex] ⟨"", "A", 300, "1.1.1.1"⟩
      (by decide)
  · have h := C9_unsupported_skip.2.1
      [rrApex, RawRecord.mk 2 "mail" "MX" 300 "m.z.com."]
    exact h.trans (by decide)

/-- C8: creating an A or AAAA record posts one `{target, source, ttl,
type}` parameter object per element of the record's value list, in list
order, one `createRecord` call each; creating a CNAME posts exactly
one. -/
theorem C8_create_expansion (cl : Client) (r : DesiredRecord)
    (hok : ∀ p : ParamsRec,
      cl.createRes (r.zone.dropRight 1) p = Except.ok ()) :
    ((r.type = "A" ∨ r.type = "AAAA") →
      apply_create cl r =
        (r.values.map (fun v =>
            ApiCall.create (r.zone.dropRight 1) ⟨v, r.name, r.ttl, r.type⟩),
          Except.ok ())) ∧
    (r.type = "CNAME" →
      apply_create cl r =
        ([ApiCall.create (r.zone.dropRight 1)
            ⟨r.value, r.name, r.ttl, r.type⟩], Except.ok ())) := by
  constructor
  · intro h
    have hcond : (r.type = "A" || r.type = "AAAA") = true := by
      rcases h with h | h <;> simp [h]
    unfold apply_create
    rw [if_pos hcond]
    rw [create_loop_ok cl (r.zone.dropRight 1) (params_for_multiple r)
      (fun p _ => hok p)]
    simp [params_for_multiple, Function.comp]
  · intro h
    have hcond : ¬(r.type = "A" || r.type = "AAAA") = true := by simp [h]
    unfold apply_create
    rw [if_neg hcond, if_pos h]
    rw [create_loop_ok cl (r.zone.dropRight 1) (params_for_generic r)
      (fun p _ => hok p)]
    simp [params_for_generic]

/-- C8 witness: creating the two-value A record posts exactly its two
parameter objects, in order. -/
theorem C8_create_expansion_witness :
    apply_create okCl rC1 =
      ([ApiCall.create "example.com" ⟨"1.1.1.1", "www", 300, "A"⟩,
        ApiCall.create "example.com" ⟨"2.2.2.2", "www", 300, "A"⟩],
        Except.ok ()) := by
  have h := (C8_create_expansion okCl rC1 (fun p => rfl)).1 (Or.inl rfl)
  exact h.trans (by decide)

/-- C10: when a cache-miss fetch fails (with any error), nothing is
stored: the cache comes back unchanged, so a repeated access for the same
zone issues the fetch again. -/
theorem C10_failed_fetch_not_cached (cl : Client) (cache : ZoneCache)
    (z : String) (e : Err) (h1 : lookupZone cache z = none)
    (h2 : cl.fetchRes (rstripDots (z.dropRight 1)) = Except.error e) :
    (zone_records cl cache z).2.1 = cache ∧
    countFetch (zone_records cl cache z).1 = 1 ∧
    countFetch (zone_records cl (zone_records cl cache z).2.1 z).1 = 1 := by
  cases he : isClientException e with
  | true =>
    have hzr := zone_records_miss_swallow cl cache z e h1 h2 he
    refine ⟨by rw [hzr], by rw [hzr]; rfl, ?_⟩
    have hc : (zone_records cl cache z).2.1 = cache := by rw [hzr]
    rw [hc, hzr]
    rfl
  | false =>
    have hzr := zone_records_miss_propagate cl cache z e h1 h2 he
    refine ⟨by rw [hzr], by rw [hzr]; rfl, ?_⟩
    have hc : (zone_records cl cache z).2.1 = cache := by rw [hzr]
    rw [hc, hzr]
    rfl

/-- C10 witness: a client whose fetch is rejected with HTTP 400 leaves
the empty cache empty and refetches on the next access. -/
theorem C10_failed_fetch_not_cached_witness :
    (zone_records badFetchCl [] "z.com.").2.1 = [] ∧
    countFetch (zone_records badFetchCl [] "z.com.").1 = 1 ∧
    countFetch (zone_records badFetchCl
        (zone_records badFetchCl [] "z.com.").2.1 "z.com.").1 = 1 :=
  C10_failed_fetch_not_cached badFetchCl [] "z.com." Err.badRequest rfl rfl

theorem apply_delete_fst (cl : Client) (cache : ZoneCache)
    (existing : DesiredRecord) :
    (apply_delete cl cache existing).1 = apexRename existing := by
  rcases hzr : zone_records cl cache (apexRename existing).zone
      with ⟨tr, cache', res⟩
  cases res <;> simp [apply_delete, hzr]

theorem apply_update_fst (cl : Client) (cache : ZoneCache)
    (existing new : DesiredRecord) :
    (apply_update cl cache existing new).1 = apexRename existing := by
  have h := apply_delete_fst cl cache existing
  rcases hd : apply_delete cl cache existing with ⟨ex, tr, cache', res⟩
  rw [hd] at h
  cases res <;> simp [apply_update, hd] <;> exact h

/-- The only in-place mutation the apply handlers perform on a change:
Delete and Update rewrite an apex existing record's name from `""` to
`"."`; Create changes nothing. -/
def renameApexChange : Change → Change
  | Change.create new => Change.create new
  | Change.delete existing => Change.delete (apexRename existing)
  | Change.update existing new => Change.update (apexRename existing) new

/-- C6 amended: the change records consumed by apply are read-only except
for one mutation — the Delete and Update handlers rewrite an apex
existing record's name from `""` to `"."` in place; every other field and
every Create record is untouched. -/
theorem C6_mutation_is_exactly_apex_rename (cl : Client)
    (cache : ZoneCache) (c : Change) :
    (apply_change cl cache c).1 = renameApexChange c := by
  cases c with
  | create new => rfl
  | delete existing =>
    simp [apply_change, renameApexChange, apply_delete_fst]
  | update existing new =>
    simp [apply_change, renameApexChange, apply_update_fst]

/-- C2 amended: a handler failure propagates out of `_apply` with the
remaining changes not attempted, but the zone's cache entry is then NOT
invalidated — the `pop` is only reached when every handler succeeded, in
which case the entry is removed. -/
theorem C2_failure_skips_invalidation (cl : Client) (cache : ZoneCache)
    (zName : String) (changes : List Change) :
    (∀ e : Err,
      (apply_plan cl cache zName changes).2.2.2 = Except.error e →
      containsZone cache zName = true →
      containsZone (apply_plan cl cache zName changes).2.2.1 zName =
        true) ∧
    ((apply_plan cl cache zName changes).2.2.2 = Except.ok () →
      lookupZone (apply_plan cl cache zName changes).2.2.1 zName =
        none) := by
  have hmono := apply_loop_cache_mono cl cache changes zName
  rcases hal : apply_loop cl cache changes with ⟨cs, tr, cache', res⟩
  rw [hal] at hmono
  unfold apply_plan
  rw [hal]
  cases res with
  | error e =>
    constructor
    · intro e' _ hz
      simpa using hmono hz
    · intro hok
      simp at hok
  | ok u =>
    constructor
    · intro e' herr
      simp at herr
    · intro _
      simpa using lookupZone_eraseZone_self cache' zName

/-- C2 witness: the failing one-change batch from the counterexample,
pushed through the amended theorem. -/
theorem C2_failure_skips_invalidation_witness :
    containsZone (apply_plan badCreateCl [("z.com.", [rrApex])] "z.com."
        [Change.create wwwCname]).2.2.1 "z.com." = true :=
  (C2_failure_skips_invalidation badCreateCl [("z.com.", [rrApex])]
      "z.com." [Change.create wwwCname]).1 Err.badRequest (by decide)
    (by decide)

/-- C3 amended: populate returns the cache-membership test evaluated
after `zone_records` has run — true iff the zone was already cached when
the call began or the cache-miss fetch succeeded and was stored. -/
theorem C3_returns_membership_after_fetch (cl : Client)
    (cache : ZoneCache) (z : String) (out : List RecordOut) (b : Bool)
    (h : (populate cl cache z).2.2 = Except.ok (out, b)) :
    b = (containsZone cache z ||
      exceptIsOk (cl.fetchRes (rstripDots (z.dropRight 1)))) := by
  cases hl : lookupZone cache z with
  | some recs =>
    have hz := zone_records_hit cl cache z recs hl
    unfold populate at h
    rw [hz] at h
    cases hf : cl.fetchRes (rstripDots z) with
    | ok l =>
      rw [hf] at h
      simp at h
      rw [← h.2]
      simp [containsZone, hl]
    | error e =>
      rw [hf] at h
      simp at h
  | none =>
    cases hfe : cl.fetchRes (rstripDots (z.dropRight 1)) with
    | ok recs =>
      have hz := zone_records_miss_ok cl cache z recs hl hfe
      unfold populate at h
      rw [hz] at h
      cases hf : cl.fetchRes (rstripDots z) with
      | ok l =>
        rw [hf] at h
        simp at h
        rw [← h.2]
        simp [hfe, exceptIsOk, containsZone_insertZone_self]
      | error e =>
        rw [hf] at h
        simp at h
    | error e =>
      cases he : isClientException e with
      | true =>
        have hz := zone_records_miss_swallow cl cache z e hl hfe he
        unfold populate at h
        rw [hz] at h
        cases hf : cl.fetchRes (rstripDots z) with
        | ok l =>
          rw [hf] at h
          simp at h
          rw [← h.2]
          simp [containsZone, hl, hfe, exceptIsOk]
        | error e2 =>
          rw [hf] at h
          simp at h
      | false =>
        have hz := zone_records_miss_propagate cl cache z e hl hfe he
        unfold populate at h
        rw [hz] at h
        simp at h

/-- C3 witness: the first populate of a never-seen zone with a
successful fetch returned `true`, matching membership-after-fetch. -/
theorem C3_returns_membership_after_fetch_witness :
    (true : Bool) = (containsZone ([] : ZoneCache) "example.com." ||
      exceptIsOk (okCl.fetchRes (rstripDots ("example.com.".dropRight 1)))) :=
  C3_returns_membership_after_fetch okCl [] "example.com." [] true
    (by decide)

/-- C4 amended: through `zone_records` the fetch is at most once per
cache lifetime (zero on a hit, one on a miss), but populate itself always
issues one extra uncached fetch for its log line — so after an apply
invalidates the zone, the next populate issues exactly two fetches
(unless the miss fetch fails with a propagating error, aborting populate
after one). -/
theorem C4_fetch_counts (cl : Client) (cache : ZoneCache) (z : String) :
    (containsZone cache z = true →
      countFetch (zone_records cl cache z).1 = 0 ∧
      countFetch (populate cl cache z).1 = 1) ∧
    (containsZone cache z = false →
      countFetch (zone_records cl cache z).1 = 1 ∧
      (fetchPropagates (cl.fetchRes (rstripDots (z.dropRight 1))) = false →
        countFetch (populate cl cache z).1 = 2)) := by
  constructor
  · intro hc
    obtain ⟨recs, hl⟩ : ∃ recs, lookupZone cache z = some recs := by
      cases hll : lookupZone cache z with
      | none => rw [containsZone, hll] at hc; simp at hc
      | some v => exact ⟨v, rfl⟩
    have hz := zone_records_hit cl cache z recs hl
    refine ⟨by rw [hz]; rfl, ?_⟩
    unfold populate
    rw [hz]
    cases hf : cl.fetchRes (rstripDots z) <;> simp [countFetch]
  · intro hc
    have hl : lookupZone cache z = none := by
      cases hll : lookupZone cache z with
      | none => rfl
      | some v => rw [containsZone, hll] at hc; simp at hc
    constructor
    · cases hfe : cl.fetchRes (rstripDots (z.dropRight 1)) with
      | ok recs => rw [zone_records_miss_ok cl cache z recs hl hfe]; rfl
      | error e =>
        cases he : isClientException e with
        | true =>
          rw [zone_records_miss_swallow cl cache z e hl hfe he]; rfl
        | false =>
          rw [zone_records_miss_propagate cl cache z e hl hfe he]; rfl
    · intro hprop
      cases hfe : cl.fetchRes (rstripDots (z.dropRight 1)) with
      | ok recs =>
        have hz := zone_records_miss_ok cl cache z recs hl hfe
        unfold populate
        rw [hz]
        cases hf : cl.fetchRes (rstripDots z) <;> simp [countFetch]
      | error e =>
        cases he : isClientException e with
        | true =>
          have hz := zone_records_miss_swallow cl cache z e hl hfe he
          unfold populate
          rw [hz]
          cases hf : cl.fetchRes (rstripDots z) <;> simp [countFetch]
        | false =>
          rw [hfe] at hprop
          simp [fetchPropagates, he] at hprop

/-- C4 witness: on an empty cache, `zone_records` fetches once and a full
populate fetches twice. -/
theorem C4_fetch_counts_witness :
    countFetch (zone_records okCl [] "example.com.").1 = 1 ∧
    countFetch (populate okCl [] "example.com.").1 = 2 :=
  ⟨((C4_fetch_counts okCl [] "example.com.").2 (by decide)).1,
    ((C4_fetch_counts okCl [] "example.com.").2 (by decide)).2 (by decide)⟩

/-- C5 amended: on a cache miss, only HTTP 400 (BadRequest) and 401
(Unauthorized) are swallowed into an empty record list; any other
non-2xx status escapes `zone_records` as an error. -/
theorem C5_only_client_exceptions_swallowed (cache : ZoneCache)
    (z : String) (st : Nat) (recs : List RawRecord)
    (h : lookupZone cache z = none) :
    ((st = 400 ∨ st = 401) →
      (zone_records (mkClient (fetchOfHttp (fun _ => (st, recs)))) cache
          z).2.2 = Except.ok []) ∧
    (400 ≤ st → st < 600 → st ≠ 400 → st ≠ 401 →
      (zone_records (mkClient (fetchOfHttp (fun _ => (st, recs)))) cache
          z).2.2 = Except.error (Err.httpError st)) := by
  constructor
  · intro hst
    rcases hst with rfl | rfl
    · have hf : (mkClient (fetchOfHttp (fun _ => (400, recs)))).fetchRes
          (rstripDots (z.dropRight 1)) = Except.error Err.badRequest := rfl
      rw [zone_records_miss_swallow _ cache z Err.badRequest h hf rfl]
    · have hf : (mkClient (fetchOfHttp (fun _ => (401, recs)))).fetchRes
          (rstripDots (z.dropRight 1)) = Except.error Err.unauthorized :=
        rfl
      rw [zone_records_miss_swallow _ cache z Err.unauthorized h hf rfl]
  · intro h1 h2 h3 h4
    have hcl : classifyStatus st = some (Err.httpError st) := by
      unfold classifyStatus
      rw [if_neg h3, if_neg h4, if_pos ⟨h1, h2⟩]
    have hf : (mkClient (fetchOfHttp (fun _ => (st, recs)))).fetchRes
        (rstripDots (z.dropRight 1)) =
          Except.error (Err.httpError st) := by
      show request st recs = Except.error (Err.httpError st)
      unfold request
      rw [hcl]
    rw [zone_records_miss_propagate _ cache z (Err.httpError st) h hf rfl]

/-- C5 witness: HTTP 401 on a miss degrades to the empty row list. -/
theorem C5_only_client_exceptions_swallowed_witness :
    (zone_records (mkClient (fetchOfHttp (fun _ => (401, [rrApex])))) []
        "z.com.").2.2 = Except.ok [] :=
  (C5_only_client_exceptions_swallowed [] "z.com." 401 [rrApex] rfl).1
    (Or.inr rfl)

end Infomaniak
